import Mathlib

/-!
Shallow embedding of src/src/preprocess_atis_traditional.py.

The script is a linear ETL pipeline over tab-separated corpus files:
a MultiATIS++ loader keyed by (language, split, id), a reformatter that
turns each record into an (input, output) string pair, a hi/tr dev-set
loader, a merger that routes MultiATIS records to dev (consuming dev-set
entries), oversamples hi/tr train records, and a writer.

Strings are modelled with Lean String (a structure over List Char); the
Python string operations used by the script (split with no argument,
split on a separator character, lower, replace of the fixed pattern, int)
are embedded as structurally recursive functions so that every definition
evaluates by kernel reduction.
-/

/-- Python str.lower, restricted to the ASCII case mapping the corpus uses. -/
def pyLower (s : String) : String := ⟨s.toList.map Char.toLower⟩

/-- Helper for whitespace splitting; the accumulator holds the current word
reversed. -/
def wordsAux : List Char → List Char → List (List Char)
  | [], [] => []
  | [], acc => [acc.reverse]
  | c :: rest, acc =>
    if c.isWhitespace then
      match acc with
      | [] => wordsAux rest []
      | _ :: _ => acc.reverse :: wordsAux rest []
    else wordsAux rest (c :: acc)

/-- Python str.split() with no argument: split on runs of whitespace,
dropping empty parts. -/
def pySplit (s : String) : List String := (wordsAux s.toList []).map String.mk

/-- Split on a single separator character, keeping empty parts:
Python str.split(sep) for a one-character sep. -/
def splitSep (sep : Char) : List Char → List (List Char)
  | [] => [[]]
  | c :: rest =>
    let parts := splitSep sep rest
    if c = sep then [] :: parts
    else
      match parts with
      | [] => [[c]]
      | p :: ps => (c :: p) :: ps

/-- Python str.split(sep) for a one-character separator string. -/
def pySplitOn (s : String) (sep : Char) : List String :=
  (splitSep sep s.toList).map String.mk

/-- Python str.replace of the fixed pattern removed by the script
(a single left-to-right pass deleting each non-overlapping occurrence
of the five characters a, t, i, s, underscore). -/
def cleanAux : List Char → List Char
  | 'a' :: 't' :: 'i' :: 's' :: '_' :: rest => cleanAux rest
  | c :: rest => c :: cleanAux rest
  | [] => []

/-- intent.replace of the corpus marker with the empty string
(lines 73 and 214 of the script). -/
def cleanIntent (s : String) : String := ⟨cleanAux s.toList⟩

/-- Digit accumulator for integer parsing. -/
def parseNatAux : List Char → Nat → Option Nat
  | [], acc => some acc
  | c :: rest, acc =>
    if c.isDigit then parseNatAux rest (acc * 10 + (c.toNat - 48)) else none

/-- Python int() applied to the id column, modelled as an optional minus
sign followed by one or more decimal digits. -/
def parseInt (s : String) : Option Int :=
  match s.toList with
  | [] => none
  | '-' :: rest =>
    match rest with
    | [] => none
    | _ :: _ => (parseNatAux rest 0).map (fun n => -(n : Int))
  | l => (parseNatAux l 0).map (fun n => (n : Int))

/-! ## MultiATIS++ loader (data_import_mapp, lines 57 to 75) -/

/-- One stored corpus record: utterance, slot-tag string, cleaned intent. -/
structure MappRecord where
  utterance : String
  slots : String
  intent : String
deriving DecidableEq, Repr

/-- Filename parsing of data_import_mapp (lines 61 to 63): the name must
split into exactly two parts on the underscore, the remainder into exactly
two parts on the dot; the language code is lowercased.  Any other shape is
an uncaught ValueError, modelled as none. -/
def parseMappFilename (filename : String) : Option (String × String) :=
  match pySplitOn filename '_' with
  | [split, langExt] =>
    match pySplitOn langExt '.' with
    | [lang, _ext] => some (split, pyLower lang)
    | _ => none
  | _ => none

/-- One data row of a MultiATIS++ file (lines 71 to 75): columns 0 to 3 are
id, utterance, slots, intent; the id is parsed as an integer and the intent
marker is removed.  A short row or a non-integer id is an uncaught error,
modelled as none. -/
def importRowMapp (row : List String) : Option (Int × MappRecord) :=
  match row[0]?, row[1]?, row[2]?, row[3]? with
  | some eyeD, some utterance, some slots, some intent0 =>
    match parseInt eyeD with
    | some n => some (n, { utterance := utterance, slots := slots, intent := cleanIntent intent0 })
    | none => none
  | _, _, _, _ => none

/-- Python dict assignment for the inner id-keyed table (line 74):
later assignments under the same key overwrite earlier ones. -/
def updMap (d : Int → Option MappRecord) (n : Int) (v : MappRecord) :
    Int → Option MappRecord :=
  fun k => if k = n then some v else d k

/-- The row loop of data_import_mapp over one file: each row is parsed and
stored under its id; any failing row aborts the run (none), with no
skip-and-continue path. -/
def importRowsMapp : List (List String) → (Int → Option MappRecord) →
    Option (Int → Option MappRecord)
  | [], d => some d
  | row :: rest, d =>
    match importRowMapp row with
    | none => none
    | some (n, v) => importRowsMapp rest (updMap d n v)

/-! ## MultiATIS++ reformatter (reformat_data_mapp, lines 116 to 126) -/

/-- The token-and-tag loop shared by reformatter and merger (lines 121 to
123 and 217 to 219): for each positional pair whose tag is not the outside
marker O, append the token and its bracketed tag. -/
def emitPairs (pairs : List (String × String)) : String :=
  pairs.foldl
    (fun acc p => if p.2 ≠ "O" then acc ++ p.1 ++ " <" ++ p.2 ++ "> " else acc) ""

/-- The tokens actually emitted by emitPairs: the first components of the
positional token-tag pairs whose tag is not O.  Pairing is truncated to the
shorter of the two whitespace-token sequences by zip. -/
def emittedTokens (utt slots : String) : List String :=
  (((pySplit utt).zip (pySplit slots)).filter (fun p => p.2 ≠ "O")).map Prod.fst

/-- Reformatting of one record (lines 119 to 124): lowercase the utterance,
emit non-outside token-tag pairs, append the intent and language markers.
Returns the (input, output) pair of strings. -/
def reformatRecord (lang : String) (r : MappRecord) : String × String :=
  let utt := pyLower r.utterance
  let outstr := emitPairs ((pySplit utt).zip (pySplit r.slots))
  (utt, outstr ++ "<intent-" ++ r.intent ++ "> <lang-" ++ lang ++ ">")

/-! ## The final_data object: two split-keyed dicts of string lists.
The dicts have exactly the keys train, dev and test (lines 107 to 113);
they are modelled as total functions together with a key check on append,
so an append under any other key is the uncaught KeyError, modelled as
none. -/

structure FinalData where
  input : String → List String
  output : String → List String

def fdEmpty : FinalData := ⟨fun _ => [], fun _ => []⟩

/-- list.append on the entry of one key of a split-keyed dict. -/
def appendAt (f : String → List String) (k s : String) : String → List String :=
  fun q => if q = k then f k ++ [s] else f q

/-- Append an (input, output) pair to the lists of split k, both in
lockstep, with no key check (used where the source hardcodes a key that is
always present). -/
def fdAppend (fd : FinalData) (k inp out : String) : FinalData :=
  ⟨appendAt fd.input k inp, appendAt fd.output k out⟩

/-- Append with the dict key check: a split other than train, dev or test
raises KeyError, modelled as none. -/
def fdAppendChecked (fd : FinalData) (k inp out : String) : Option FinalData :=
  if k = "train" ∨ k = "dev" ∨ k = "test" then some (fdAppend fd k inp out)
  else none

/-- n appends of the same (input, output) pair, as in the oversampling
loops (lines 230 to 232 and 235 to 237). -/
def fdAppendN (fd : FinalData) : Nat → String → String → String → FinalData
  | 0, _, _, _ => fd
  | n + 1, k, inp, out => fdAppendN (fdAppend fd k inp out) n k inp out

/-- The reformatter loop (lines 116 to 126) over the flattened sequence of
(language, split, record) triples, appending each reformatted pair to the
lists of its split. -/
def reformatProcess : List (String × String × MappRecord) → FinalData → Option FinalData
  | [], fd => some fd
  | (lang, split, r) :: rest, fd =>
    match fdAppendChecked fd split (reformatRecord lang r).1 (reformatRecord lang r).2 with
    | none => none
    | some fd' => reformatProcess rest fd'

/-! ## Hindi/Turkish dev-set loader (get_hi_tr_dev_mapp, lines 140 to 173) -/

/-- The hi_tr_dev dict initialized with exactly the keys hi and tr
(lines 152 to 153). -/
def devInit : List (String × List String) := [("hi", []), ("tr", [])]

/-- Python dict lookup on the association list; a missing key is KeyError,
modelled as none. -/
def dictGet : List (String × List String) → String → Option (List String)
  | [], _ => none
  | (k, v) :: rest, key => if key = k then some v else dictGet rest key

/-- Replace the value stored under an existing key. -/
def dictSet : List (String × List String) → String → List String →
    List (String × List String)
  | [], _, _ => []
  | (k, v) :: rest, key, w => if key = k then (k, w) :: rest else (k, v) :: dictSet rest key w

/-- One row of a dev file (line 170): hi_tr_dev[lang].append(row[1]).
The dict lookup happens first, so an unknown language key is KeyError
regardless of the row contents; then the second column is read. -/
def devAppendRow (m : List (String × List String)) (lang : String)
    (row : List String) : Option (List (String × List String)) :=
  match dictGet m lang with
  | none => none
  | some l =>
    match row[1]? with
    | none => none
    | some utt => some (dictSet m lang (l ++ [utt]))

/-- The row loop of get_hi_tr_dev_mapp over one file, with the language
parsed from the filename fixed. -/
def devFileRows (lang : String) : List (List String) →
    List (String × List String) → Option (List (String × List String))
  | [], m => some m
  | row :: rest, m =>
    match devAppendRow m lang row with
    | none => none
    | some m' => devFileRows lang rest m'

/-! ## MultiATIS merger (data_import_ma, lines 199 to 240) -/

/-- The hi_tr_dev dict as seen by the merger.  The merger only ever indexes
it with the language computed on line 204, which is literally hi or tr, so
the two entries are modelled as fields with lookup dispatching on hi. -/
structure DevSets where
  hi : List String
  tr : List String
deriving DecidableEq, Repr

def DevSets.get (d : DevSets) (lang : String) : List String :=
  if lang = "hi" then d.hi else d.tr

def DevSets.set (d : DevSets) (lang : String) (l : List String) : DevSets :=
  if lang = "hi" then ⟨l, d.tr⟩ else ⟨d.hi, l⟩

/-- Filename parsing of the merger (lines 203 to 206): the name must split
into exactly two parts on the dash (else ValueError, none); the language is
hi for the literal Hindi and tr otherwise; the split is the text before the
first dot and then before the first underscore. -/
def parseMaFilename (filename : String) : Option (String × String) :=
  match pySplitOn filename '-' with
  | [rawLang, splitExt] =>
    let lang := if rawLang = "Hindi" then "hi" else "tr"
    let split := String.mk ((splitExt.toList.takeWhile (· ≠ '.')).takeWhile (· ≠ '_'))
    some (lang, split)
  | _ => none

/-- Column access of the merger (line 213): intent, non-English utterance
and non-English slots at positions 3, 4 and 5; a shorter row is an uncaught
IndexError, modelled as none. -/
def maRowFields (row : List String) : Option (String × String × String) :=
  match row[3]?, row[4]?, row[5]? with
  | some intent0, some utt, some slots => some (intent0, utt, slots)
  | _, _, _ => none

/-- The merger output string (lines 212 to 222): non-outside token-tag
pairs, then the intent and language markers. -/
def maOutstr (lang intent utt slots : String) : String :=
  emitPairs ((pySplit utt).zip (pySplit slots)) ++
    "<intent-" ++ intent ++ "> <lang-" ++ lang ++ ">"

/-- One merger row (lines 211 to 240).  Branch order as in the source:
1. the utterance is still in the dev set of its language: append the pair
   to the dev lists and remove one matching entry;
2. Hindi train: append three copies to the train lists;
3. Turkish train: append seven copies;
4. otherwise append once to the lists of the own split (KeyError, none, if
   the split is not a key of final_data). -/
def maRowStep (lang split : String) (dev : DevSets) (fd : FinalData)
    (row : List String) : Option (DevSets × FinalData) :=
  match maRowFields row with
  | none => none
  | some (intent0, utt, slots) =>
    let outstr := maOutstr lang (cleanIntent intent0) utt slots
    if utt ∈ dev.get lang then
      some (dev.set lang ((dev.get lang).erase utt), fdAppend fd "dev" utt outstr)
    else if lang = "hi" ∧ split = "train" then
      some (dev, fdAppendN fd 3 split utt outstr)
    else if lang = "tr" ∧ split = "train" then
      some (dev, fdAppendN fd 7 split utt outstr)
    else
      match fdAppendChecked fd split utt outstr with
      | none => none
      | some fd' => some (dev, fd')

/-- The merger loop over the flattened sequence of (language, split, row)
jobs coming from the directory walk. -/
def maProcess : List (String × String × List String) → DevSets → FinalData →
    Option (DevSets × FinalData)
  | [], dev, fd => some (dev, fd)
  | (l, sp, row) :: rest, dev, fd =>
    match maRowStep l sp dev fd row with
    | none => none
    | some (dev', fd') => maProcess rest dev' fd'

/-- How many jobs of language lang and utterance s the merger routes to the
dev lists through branch 1, replaying the state evolution of maProcess. -/
def countDevRouted (lang s : String) : List (String × String × List String) →
    DevSets → FinalData → Nat
  | [], _, _ => 0
  | (l, _sp, row) :: rest, dev, fd =>
    match maRowStep l _sp dev fd row with
    | none => 0
    | some (dev', fd') =>
      (match maRowFields row with
       | some (_, u, _) => if l = lang ∧ u = s ∧ u ∈ dev.get l then 1 else 0
       | none => 0) + countDevRouted lang s rest dev' fd'

/-! ## Writer (output_to_files, lines 256 to 261) -/

/-- The file written for one split and direction: each list element
followed by a newline. -/
def fileContent (data : List String) : String :=
  data.foldl (fun acc line => acc ++ line ++ "\n") ""

/-- Both lists of every split have the same length: the invariant behind
the line-aligned output files. -/
def Lockstep (fd : FinalData) : Prop :=
  ∀ k, (fd.input k).length = (fd.output k).length

/-- A one-record reformatter run used to instantiate the pipeline
invariant on concrete data. -/
def exItems : List (String × String × MappRecord) :=
  [("en", "train", ⟨"a b", "O B-x", "flight"⟩)]

/-- A one-row merger run used to instantiate the pipeline invariant on
concrete data. -/
def exJobs : List (String × String × List String) :=
  [("hi", "train", ["0", "1", "2", "atis_flight", "u v", "O B-x"])]

/-- The final_data state after the concrete reformatter run. -/
def exFd1 : FinalData := (reformatProcess exItems fdEmpty).getD fdEmpty

/-- The state after the concrete merger run. -/
def exPair : DevSets × FinalData :=
  (maProcess exJobs ⟨[], []⟩ exFd1).getD (⟨[], []⟩, fdEmpty)

/-- Modelled from the spec: the reading of claim C6 that only a leading
corpus marker is removed from the intent string, stated in the words of
the spec for comparison with cleanIntent. -/
def specLeadingStripped (s : String) : String :=
  match s.toList with
  | 'a' :: 't' :: 'i' :: 's' :: '_' :: rest => ⟨rest⟩
  | _ => s

example : parseMappFilename "dev_DE.tsv" = some ("dev", "de") := by decide
example : parseMappFilename "dev_DE_x.tsv" = none := by decide
example : parseMaFilename "Hindi-train_EN.tsv" = some ("hi", "train") := by decide
example : importRowMapp ["4", "u v", "O B-x", "atis_flight"] =
    some (4, ⟨"u v", "O B-x", "flight"⟩) := by decide
example :
    reformatRecord "en" ⟨"Flights To Boston", "O O B-toloc.city_name", "flight"⟩ =
      ("flights to boston", "boston <B-toloc.city_name> <intent-flight> <lang-en>") := by
  decide

/-! ## Claim theorems -/

/-- C4: the record with utterance flights from boston to denver, the three
city slot tags, source intent atis_flight (stored after cleaning) and
language en reformats to the stated input and output lines. -/
theorem c4_reformat_example :
    reformatRecord "en"
      ⟨"flights from boston to denver",
        "O O B-fromloc.city_name O B-toloc.city_name", cleanIntent "atis_flight"⟩ =
      ("flights from boston to denver",
        "boston <B-fromloc.city_name> denver <B-toloc.city_name> <intent-flight> <lang-en>") := by
  decide

/-- C5: for every utterance and slot string, the number of utterance tokens
emitted into the output string (positional pairs with a non-outside tag,
truncated to the shorter sequence) is at most the number of whitespace
tokens of the input utterance.  This covers both the reformatter (where the
input line is the lowercased utterance and the pairs are built from that
same string) and the merger (where the input line is the raw utterance). -/
theorem c5_emitted_le_input_tokens (utt slots : String) :
    (emittedTokens utt slots).length ≤ (pySplit utt).length := by
  simp only [emittedTokens, List.length_map]
  exact le_trans (List.length_filter_le _ _)
    (by rw [List.length_zip]; exact min_le_left _ _)

/-- C6 counterexample: the claim that the stored intent is the source
intent with only a leading marker stripped fails on the source intent
atis_atis_flight, where the loader stores flight but a leading strip
leaves atis_flight. -/
theorem c6_counterexample :
    importRowMapp ["1", "an utt", "O", "atis_atis_flight"] =
        some (1, ⟨"an utt", "O", "flight"⟩) ∧
      specLeadingStripped "atis_atis_flight" = "atis_flight" ∧
      cleanIntent "atis_atis_flight" ≠ specLeadingStripped "atis_atis_flight" := by
  decide

/-- C6 amended: the loader stores the source intent with every
non-overlapping occurrence of the corpus marker removed in one
left-to-right pass (not only a leading one); in particular a source intent
atis_flight is stored as flight, so its marker is intent-flight. -/
theorem c6_intent_cleaning :
    (∀ eyeD utterance slots intent0 rest,
        importRowMapp (eyeD :: utterance :: slots :: intent0 :: rest) =
          (parseInt eyeD).map (fun n => (n, ⟨utterance, slots, cleanIntent intent0⟩))) ∧
      cleanIntent "atis_flight" = "flight" := by
  refine ⟨fun eyeD utterance slots intent0 rest => ?_, by decide⟩
  cases hp : parseInt eyeD <;> simp [importRowMapp, hp]

/-- C8: intent cleaning removes every occurrence of the corpus marker in a
single left-to-right pass, not only a leading one: atis_atis_flight becomes
flight, and a marker in the middle of the string is deleted too. -/
theorem c8_replace_all_occurrences :
    cleanIntent "atis_atis_flight" = "flight" ∧
      cleanIntent "day_atis_number" = "day_number" := by
  decide

/-- C7: every malformed input aborts the loader with no partial result: a
filename that does not split into exactly two parts on the underscore, a
remainder that does not split into exactly two parts on the dot, a row with
fewer than four columns, a non-integer id, and any failing row inside a
file all yield none (the uncaught error), never a skip. -/
theorem c7_fail_fast :
    (∀ fn, (pySplitOn fn '_').length ≠ 2 → parseMappFilename fn = none) ∧
    (∀ fn split langExt, pySplitOn fn '_' = [split, langExt] →
      (pySplitOn langExt '.').length ≠ 2 → parseMappFilename fn = none) ∧
    (∀ row : List String, row.length < 4 → importRowMapp row = none) ∧
    (∀ row eyeD, row[0]? = some eyeD → parseInt eyeD = none →
      importRowMapp row = none) ∧
    (∀ rows d row, row ∈ rows → importRowMapp row = none →
      importRowsMapp rows d = none) := by
  refine ⟨?_, ?_, ?_, ?_, ?_⟩
  · intro fn h
    rcases hl : pySplitOn fn '_' with _ | ⟨a, _ | ⟨b, _ | ⟨c, t⟩⟩⟩
    · simp [parseMappFilename, hl]
    · simp [parseMappFilename, hl]
    · exact absurd (by rw [hl]; rfl) h
    · simp [parseMappFilename, hl]
  · intro fn split langExt hl h
    rcases he : pySplitOn langExt '.' with _ | ⟨a, _ | ⟨b, _ | ⟨c, t⟩⟩⟩
    · simp [parseMappFilename, hl, he]
    · simp [parseMappFilename, hl, he]
    · exact absurd (by rw [he]; rfl) h
    · simp [parseMappFilename, hl, he]
  · intro row h
    have h3 : row[3]? = none := List.getElem?_eq_none (by omega)
    cases h0 : row[0]? <;> cases h1 : row[1]? <;> cases h2 : row[2]? <;>
      simp [importRowMapp, h0, h1, h2, h3]
  · intro row eyeD h0 hp
    cases h1 : row[1]? <;> cases h2 : row[2]? <;> cases h3 : row[3]? <;>
      simp [importRowMapp, h0, h1, h2, h3, hp]
  · intro rows
    induction rows with
    | nil => intro d row h; simp at h
    | cons r rest ih =>
      intro d row hmem hnone
      rcases List.mem_cons.mp hmem with heq | hmem2
      · subst heq; simp [importRowsMapp, hnone]
      · cases hr : importRowMapp r with
        | none => simp [importRowsMapp, hr]
        | some nv =>
          obtain ⟨n, v⟩ := nv
          simpa [importRowsMapp, hr] using ih (updMap d n v) row hmem2 hnone

/-- C7 witness: each failure mode at a concrete input. -/
theorem c7_fail_fast_witness :
    parseMappFilename "ab.tsv" = none ∧
      parseMappFilename "a_b" = none ∧
      importRowMapp ["1", "u", "s"] = none ∧
      importRowMapp ["x", "u", "s", "i"] = none ∧
      importRowsMapp [["1"]] (fun _ => none) = none :=
  ⟨c7_fail_fast.1 "ab.tsv" (by decide),
   c7_fail_fast.2.1 "a_b" "a" "b" (by decide) (by decide),
   c7_fail_fast.2.2.1 ["1", "u", "s"] (by decide),
   c7_fail_fast.2.2.2.1 ["x", "u", "s", "i"] "x" (by decide) (by decide),
   c7_fail_fast.2.2.2.2 [["1"]] (fun _ => none) ["1"]
     (List.mem_singleton.mpr rfl) (by decide)⟩

/-- C9: the hi/tr dev loader initializes its dict with exactly the keys hi
and tr, and a file whose filename parses to any other (lowercased) language
code aborts on its first data row with the uncaught key lookup error. -/
theorem c9_dev_loader_keys :
    devInit.map Prod.fst = ["hi", "tr"] ∧
      (∀ fn split lang, parseMappFilename fn = some (split, lang) →
        lang ≠ "hi" → lang ≠ "tr" →
        ∀ row rest, devFileRows lang (row :: rest) devInit = none) := by
  refine ⟨by decide, ?_⟩
  intro fn split lang _ h1 h2 row rest
  have hg : dictGet devInit lang = none := by simp [devInit, dictGet, h1, h2]
  simp [devFileRows, devAppendRow, hg]

/-- C9 witness: a German dev file aborts on its first row. -/
theorem c9_dev_loader_keys_witness :
    devFileRows "de" [["0", "an utterance"]] devInit = none :=
  c9_dev_loader_keys.2 "dev_DE.tsv" "dev" "de" (by decide) (by decide) (by decide)
    ["0", "an utterance"] []

/-- Splitting the loader row loop at a concatenation. -/
theorem importRowsMapp_append (a b : List (List String)) (d : Int → Option MappRecord) :
    importRowsMapp (a ++ b) d =
      (importRowsMapp a d).bind (fun d1 => importRowsMapp b d1) := by
  induction a generalizing d with
  | nil => simp [importRowsMapp]
  | cons r rest ih =>
    simp only [List.cons_append, importRowsMapp]
    cases hr : importRowMapp r with
    | none => rfl
    | some nv =>
      obtain ⟨n, v⟩ := nv
      exact ih (updMap d n v)

/-- Rows that never store under key n leave that key of the table
unchanged. -/
theorem importRowsMapp_avoid (n : Int) :
    ∀ (rows : List (List String)) (d d' : Int → Option MappRecord),
      (∀ r ∈ rows, ∀ m v, importRowMapp r = some (m, v) → m ≠ n) →
      importRowsMapp rows d = some d' → d' n = d n := by
  intro rows
  induction rows with
  | nil =>
    intro d d' _ hall
    simp only [importRowsMapp, Option.some_inj] at hall
    rw [← hall]
  | cons r rest ih =>
    intro d d' h hall
    unfold importRowsMapp at hall
    cases hr : importRowMapp r with
    | none => rw [hr] at hall; cases hall
    | some mv =>
      obtain ⟨m, v⟩ := mv
      rw [hr] at hall
      have hm : m ≠ n := h r (List.mem_cons_self r rest) m v hr
      have hrest := ih (updMap d m v) d'
        (fun r' hr' => h r' (List.mem_cons_of_mem r hr')) hall
      rw [hrest]
      simp only [updMap]
      rw [if_neg (fun hc => hm hc.symm)]

/-- C10: when a file holds several rows with the same integer id, the table
keeps only the record of the last such row: after importing any row list in
which row stores under key n and no later row stores under n, the table at
n holds exactly the record of row. -/
theorem c10_duplicate_id_last_wins (l1 l2 : List (List String)) (row : List String)
    (n : Int) (v : MappRecord) (d d' : Int → Option MappRecord)
    (hrow : importRowMapp row = some (n, v))
    (hafter : ∀ r ∈ l2, ∀ m w, importRowMapp r = some (m, w) → m ≠ n)
    (hall : importRowsMapp (l1 ++ row :: l2) d = some d') :
    d' n = some v := by
  rw [importRowsMapp_append] at hall
  cases h1 : importRowsMapp l1 d with
  | none => rw [h1] at hall; cases hall
  | some d1 =>
    rw [h1, Option.some_bind] at hall
    unfold importRowsMapp at hall
    rw [hrow] at hall
    have := importRowsMapp_avoid n l2 (updMap d1 n v) d' hafter hall
    rw [this]
    simp [updMap]

/-- C10 witness: two rows with id 1; the table keeps the second record. -/
theorem c10_duplicate_id_last_wins_witness :
    updMap (updMap (fun _ => none) 1 ⟨"a", "b", "c"⟩) 1 ⟨"x", "y", "z"⟩ 1 =
      some (⟨"x", "y", "z"⟩ : MappRecord) :=
  c10_duplicate_id_last_wins [["1", "a", "b", "c"]] [] ["1", "x", "y", "z"]
    1 ⟨"x", "y", "z"⟩ (fun _ => none) _ (by decide) (by simp) rfl

/-- Reading a dev-set entry after an update of some language key. -/
theorem DevSets.get_set (d : DevSets) (l lang : String) (L : List String) :
    (d.set l L).get lang = if (lang = "hi" ↔ l = "hi") then L else d.get lang := by
  by_cases h1 : lang = "hi" <;> by_cases h2 : l = "hi" <;>
    simp [DevSets.get, DevSets.set, h1, h2]

/-- Two language keys hitting the same dev-set entry read the same list. -/
theorem DevSets.get_congr (d : DevSets) (l lang : String)
    (h : lang = "hi" ↔ l = "hi") : d.get l = d.get lang := by
  by_cases h1 : lang = "hi"
  · simp [DevSets.get, h1, h.mp h1]
  · have h2 : ¬l = "hi" := fun hl => h1 (h.mpr hl)
    simp [DevSets.get, h1, h2]

/-- When the utterance is not in the dev set of its language, the merger
row leaves the dev sets unchanged (branches 2 to 4). -/
theorem maRowStep_dev_unchanged (l sp : String) (dev : DevSets) (fd : FinalData)
    (row : List String) (i0 u sl : String)
    (hf : maRowFields row = some (i0, u, sl)) (hm : u ∉ dev.get l)
    (dev' : DevSets) (fd' : FinalData)
    (h : maRowStep l sp dev fd row = some (dev', fd')) : dev' = dev := by
  simp only [maRowStep, hf] at h
  rw [if_neg hm] at h
  split at h
  · injection h with h1
    exact (congrArg Prod.fst h1).symm
  · split at h
    · injection h with h1
      exact (congrArg Prod.fst h1).symm
    · split at h
      · exact Option.noConfusion h
      · injection h with h1
        exact (congrArg Prod.fst h1).symm

/-- C1: for every language among hi and tr and every utterance string s, the
number of merger records of that language with utterance s routed to the dev
lists is bounded by the number of occurrences of s in the dev-dedup set of
that language at the start of the run: each routing removes one matching
entry, so with N occurrences at most N records route to dev, and a further
record with the same utterance cannot take the dev branch. -/
theorem c1_dev_consumed_once (lang s : String) (hlang : lang = "hi" ∨ lang = "tr")
    (jobs : List (String × String × List String)) (dev : DevSets) (fd : FinalData) :
    countDevRouted lang s jobs dev fd ≤ (dev.get lang).count s := by
  clear hlang
  induction jobs generalizing dev fd with
  | nil => simp [countDevRouted]
  | cons job rest ih =>
    obtain ⟨l, sp, row⟩ := job
    cases hf : maRowFields row with
    | none =>
      simp [countDevRouted, maRowStep, hf]
    | some t =>
      obtain ⟨i0, u, sl⟩ := t
      by_cases hm : u ∈ dev.get l
      · have hstep : maRowStep l sp dev fd row =
            some (dev.set l ((dev.get l).erase u),
              fdAppend fd "dev" u (maOutstr l (cleanIntent i0) u sl)) := by
          simp [maRowStep, hf, hm]
        simp only [countDevRouted, hstep, hf]
        by_cases hcond : l = lang ∧ u = s ∧ u ∈ dev.get l
        · obtain ⟨h1, h2, _⟩ := hcond
          subst h1
          subst h2
          rw [if_pos ⟨rfl, rfl, hm⟩]
          have hget : (DevSets.set dev l ((dev.get l).erase u)).get l =
              (dev.get l).erase u := by
            rw [DevSets.get_set, if_pos Iff.rfl]
          have hc := ih (DevSets.set dev l ((dev.get l).erase u))
            (fdAppend fd "dev" u (maOutstr l (cleanIntent i0) u sl))
          rw [hget, List.count_erase_self] at hc
          have hpos : 0 < (dev.get l).count u := List.count_pos_iff.mpr hm
          omega
        · rw [if_neg hcond]
          have hc := ih (DevSets.set dev l ((dev.get l).erase u))
            (fdAppend fd "dev" u (maOutstr l (cleanIntent i0) u sl))
          have hle : ((DevSets.set dev l ((dev.get l).erase u)).get lang).count s ≤
              (dev.get lang).count s := by
            rw [DevSets.get_set]
            split
            · rename_i hcell
              rw [DevSets.get_congr dev l lang hcell]
              exact (List.erase_sublist u (dev.get lang)).count_le s
            · exact le_refl _
          simpa using le_trans hc hle
      · simp only [countDevRouted]
        cases hstep : maRowStep l sp dev fd row with
        | none => exact Nat.zero_le _
        | some p =>
          obtain ⟨dev', fd'⟩ := p
          have hdev := maRowStep_dev_unchanged l sp dev fd row i0 u sl hf hm dev' fd' hstep
          subst hdev
          simp only [hf]
          have hneg : ¬(l = lang ∧ u = s ∧ u ∈ dev'.get l) := fun hc => hm hc.2.2
          rw [if_neg hneg]
          simpa using ih dev' fd'

/-- C1 witness: a hi test record whose utterance sits once in the hi dev
set routes to dev at most once. -/
theorem c1_dev_consumed_once_witness :
    countDevRouted "hi" "u v"
        [("hi", "test", ["0", "1", "2", "atis_flight", "u v", "O B-x"])]
        ⟨["u v"], []⟩ fdEmpty ≤
      ((⟨["u v"], []⟩ : DevSets).get "hi").count "u v" :=
  c1_dev_consumed_once "hi" "u v" (Or.inl rfl)
    [("hi", "test", ["0", "1", "2", "atis_flight", "u v", "O B-x"])]
    ⟨["u v"], []⟩ fdEmpty

/-- The input list of the targeted split after n repeated appends. -/
theorem fdAppendN_input (n : Nat) :
    ∀ (fd : FinalData) (k i o : String),
      (fdAppendN fd n k i o).input k = fd.input k ++ List.replicate n i := by
  induction n with
  | zero => intro fd k i o; simp [fdAppendN]
  | succ m ih =>
    intro fd k i o
    simp [fdAppendN, ih, fdAppend, appendAt, List.replicate_succ]

/-- The output list of the targeted split after n repeated appends. -/
theorem fdAppendN_output (n : Nat) :
    ∀ (fd : FinalData) (k i o : String),
      (fdAppendN fd n k i o).output k = fd.output k ++ List.replicate n o := by
  induction n with
  | zero => intro fd k i o; simp [fdAppendN]
  | succ m ih =>
    intro fd k i o
    simp [fdAppendN, ih, fdAppend, appendAt, List.replicate_succ]

/-- C2: a merger record with language hi, split train and an utterance not
matching a remaining hi dev entry appends exactly three identical copies of
its (input, output) pair to the train lists; with language tr and no tr dev
match it appends exactly seven. -/
theorem c2_train_oversampling (dev : DevSets) (fd : FinalData) (row : List String)
    (intent0 utt slots : String)
    (hf : maRowFields row = some (intent0, utt, slots)) :
    (utt ∉ dev.get "hi" →
      maRowStep "hi" "train" dev fd row =
        some (dev, fdAppendN fd 3 "train" utt
          (maOutstr "hi" (cleanIntent intent0) utt slots)) ∧
      (fdAppendN fd 3 "train" utt
          (maOutstr "hi" (cleanIntent intent0) utt slots)).input "train" =
        fd.input "train" ++ List.replicate 3 utt ∧
      (fdAppendN fd 3 "train" utt
          (maOutstr "hi" (cleanIntent intent0) utt slots)).output "train" =
        fd.output "train" ++ List.replicate 3 (maOutstr "hi" (cleanIntent intent0) utt slots)) ∧
    (utt ∉ dev.get "tr" →
      maRowStep "tr" "train" dev fd row =
        some (dev, fdAppendN fd 7 "train" utt
          (maOutstr "tr" (cleanIntent intent0) utt slots)) ∧
      (fdAppendN fd 7 "train" utt
          (maOutstr "tr" (cleanIntent intent0) utt slots)).input "train" =
        fd.input "train" ++ List.replicate 7 utt ∧
      (fdAppendN fd 7 "train" utt
          (maOutstr "tr" (cleanIntent intent0) utt slots)).output "train" =
        fd.output "train" ++ List.replicate 7 (maOutstr "tr" (cleanIntent intent0) utt slots)) := by
  have htr : ("tr" : String) ≠ "hi" := by decide
  constructor
  · intro hm
    exact ⟨by simp [maRowStep, hf, hm], fdAppendN_input 3 fd "train" utt _,
      fdAppendN_output 3 fd "train" utt _⟩
  · intro hm
    exact ⟨by simp [maRowStep, hf, hm, htr], fdAppendN_input 7 fd "train" utt _,
      fdAppendN_output 7 fd "train" utt _⟩

/-- C2 witness: the hi branch on a concrete row and empty dev sets. -/
theorem c2_train_oversampling_witness :
    (fdAppendN fdEmpty 3 "train" "u v"
        (maOutstr "hi" (cleanIntent "atis_flight") "u v" "O B-x")).input "train" =
      fdEmpty.input "train" ++ List.replicate 3 "u v" :=
  ((c2_train_oversampling ⟨[], []⟩ fdEmpty ["0", "1", "2", "atis_flight", "u v", "O B-x"]
    "atis_flight" "u v" "O B-x" rfl).1 (by decide)).2.1

/-- Appending one pair preserves equal lengths. -/
theorem lockstep_fdAppend (fd : FinalData) (k i o : String) (h : Lockstep fd) :
    Lockstep (fdAppend fd k i o) := by
  intro q
  simp only [fdAppend, appendAt]
  by_cases hq : q = k <;> simp [hq, h k, h q]

/-- Appending n pairs preserves equal lengths. -/
theorem lockstep_fdAppendN (n : Nat) :
    ∀ (fd : FinalData) (k i o : String), Lockstep fd → Lockstep (fdAppendN fd n k i o) := by
  induction n with
  | zero => intro fd k i o h; simpa [fdAppendN] using h
  | succ m ih =>
    intro fd k i o h
    exact ih (fdAppend fd k i o) k i o (lockstep_fdAppend fd k i o h)

/-- The checked append preserves equal lengths when it succeeds. -/
theorem lockstep_fdAppendChecked {fd fd' : FinalData} {k i o : String}
    (h : fdAppendChecked fd k i o = some fd') (hl : Lockstep fd) : Lockstep fd' := by
  unfold fdAppendChecked at h
  split at h
  · injection h with h1
    rw [← h1]
    exact lockstep_fdAppend fd k i o hl
  · exact Option.noConfusion h

/-- Every successful merger row keeps the two lists of each split equal in
length: all four branches append in lockstep. -/
theorem lockstep_maRowStep {l sp : String} {dev : DevSets} {fd : FinalData}
    {row : List String} {dev' : DevSets} {fd' : FinalData}
    (h : maRowStep l sp dev fd row = some (dev', fd')) (hl : Lockstep fd) :
    Lockstep fd' := by
  cases hf : maRowFields row with
  | none =>
    simp only [maRowStep, hf] at h
    exact Option.noConfusion h
  | some t =>
    obtain ⟨i0, u, sl⟩ := t
    simp only [maRowStep, hf] at h
    split at h
    · injection h with h1
      injection h1 with h2 h3
      rw [← h3]
      exact lockstep_fdAppend fd "dev" u _ hl
    · split at h
      · injection h with h1
        injection h1 with h2 h3
        rw [← h3]
        exact lockstep_fdAppendN 3 fd sp u _ hl
      · split at h
        · injection h with h1
          injection h1 with h2 h3
          rw [← h3]
          exact lockstep_fdAppendN 7 fd sp u _ hl
        · split at h
          · exact Option.noConfusion h
          · rename_i fd2 hc
            injection h with h1
            injection h1 with h2 h3
            rw [← h3]
            exact lockstep_fdAppendChecked hc hl

/-- A successful merger run keeps the two lists of each split equal in
length. -/
theorem lockstep_maProcess :
    ∀ (jobs : List (String × String × List String)) (dev : DevSets) (fd : FinalData)
      (dev' : DevSets) (fd' : FinalData),
      maProcess jobs dev fd = some (dev', fd') → Lockstep fd → Lockstep fd' := by
  intro jobs
  induction jobs with
  | nil =>
    intro dev fd dev' fd' h hl
    simp only [maProcess, Option.some_inj] at h
    injection h with h2 h3
    rw [← h3]
    exact hl
  | cons job rest ih =>
    obtain ⟨l, sp, row⟩ := job
    intro dev fd dev' fd' h hl
    simp only [maProcess] at h
    cases hstep : maRowStep l sp dev fd row with
    | none => rw [hstep] at h; exact Option.noConfusion h
    | some p =>
      obtain ⟨dev1, fd1⟩ := p
      rw [hstep] at h
      exact ih dev1 fd1 dev' fd' h (lockstep_maRowStep hstep hl)

/-- A successful reformatter run keeps the two lists of each split equal in
length. -/
theorem lockstep_reformatProcess :
    ∀ (items : List (String × String × MappRecord)) (fd fd' : FinalData),
      reformatProcess items fd = some fd' → Lockstep fd → Lockstep fd' := by
  intro items
  induction items with
  | nil =>
    intro fd fd' h hl
    simp only [reformatProcess, Option.some_inj] at h
    rw [← h]
    exact hl
  | cons item rest ih =>
    obtain ⟨lang, split, r⟩ := item
    intro fd fd' h hl
    simp only [reformatProcess] at h
    cases hc : fdAppendChecked fd split (reformatRecord lang r).1 (reformatRecord lang r).2 with
    | none => rw [hc] at h; exact Option.noConfusion h
    | some fd1 =>
      rw [hc] at h
      exact ih fd1 fd' h (lockstep_fdAppendChecked hc hl)

/-- C3: starting from split lists of equal lengths, a reformatter run
followed by a merger run leaves, for every split, as many lines in the
input list as in the output list; the writer then emits one line per list
element, so the split.input and split.output files are line-aligned. -/
theorem c3_input_output_lockstep (items : List (String × String × MappRecord))
    (jobs : List (String × String × List String)) (dev : DevSets)
    (fd0 fd1 : FinalData) (dev' : DevSets) (fd2 : FinalData)
    (h0 : Lockstep fd0)
    (h1 : reformatProcess items fd0 = some fd1)
    (h2 : maProcess jobs dev fd1 = some (dev', fd2)) :
    ∀ split, (fd2.input split).length = (fd2.output split).length :=
  lockstep_maProcess jobs dev fd1 dev' fd2 h2
    (lockstep_reformatProcess items fd0 fd1 h1 h0)

/-- C3 witness: the concrete one-record, one-row pipeline run. -/
theorem c3_input_output_lockstep_witness :
    ((exPair.2).input "train").length = ((exPair.2).output "train").length :=
  c3_input_output_lockstep exItems exJobs ⟨[], []⟩ fdEmpty exFd1 exPair.1 exPair.2
    (fun _ => rfl) rfl rfl "train"
